import Mathlib

set_option maxRecDepth 4000

/- Shallow embedding of shuentang/ilastik-feature-selection, file
   wrapper_feature_selection.py (class FeatureSelection).

   Modelling choices:
   * Feature sets are Python sets.  The floating-search phase can insert the Python
     value None into a feature set (line 282/283: apply_operation_to_feature_set is
     called with best_feat_to_modify, which can still be None there), so set elements
     are modelled as `Option Nat`: `Option.some i` is the integer feature id i and
     `Option.none` is Python's None.
   * Scores (return values of the injected evaluation function) are rationals.
   * numpy arrays X, Y and indices enter the algorithm only through their shapes,
     dtypes and the evaluation collaborator, so they are modelled by `nSamples`,
     `nFeatures`, `lenY` and two booleans for the indices argument; the evaluation
     collaborator itself is an arbitrary function `Finset Elem → ℚ` (X, Y and the
     indices are fixed for the duration of one search).
   * Python while loops are modelled with explicit fuel.  CPython iterates sets of
     small non-negative ints in ascending value order; `sortedList` fixes that order
     (None first), which the spec's design notes flag as implementation-defined
     tie-breaking. -/

abbrev Elem := Option Nat

/-- Lift a set of integer feature ids into the set-element type. -/
def liftF (s : Finset Nat) : Finset Elem := s.image Option.some

/-- Enumeration key for set elements: None first, then ids in ascending order. -/
def elemKey : Elem → Nat
  | Option.none => 0
  | Option.some n => n + 1

/-- Inverse of `elemKey`. -/
def keyElem : Nat → Elem
  | 0 => Option.none
  | n + 1 => Option.some n

/-- Keys of a multiset of elements, sorted ascending (insertion sort, so that the
    function evaluates inside the kernel). -/
def msKeys (m : Multiset Elem) : List Nat :=
  Quot.liftOn m (fun l => List.insertionSort (· ≤ ·) (l.map elemKey))
    (fun _ _ h =>
      List.eq_of_perm_of_sorted
        (((List.perm_insertionSort _ _).trans (h.map _)).trans
          (List.perm_insertionSort _ _).symm)
        (List.sorted_insertionSort _ _) (List.sorted_insertionSort _ _))

/-- Canonical iteration order of a Python feature set. -/
def sortedList (s : Finset Elem) : List Elem := (msKeys s.val).map keyElem




/-- Value semantics of apply_operation_to_feature_set (lines 91-114): operation 1
    adds the id, any other operation removes it; adding a present id or removing an
    absent one is a logged no-op. -/
def applyOp (s : Finset Elem) (i : Elem) (op : Int) : Finset Elem :=
  if op = 1 then (if i ∈ s then s else insert i s)
  else (if i ∉ s then s else s.erase i)

/-- Heap of Python set objects; a reference is an index into the store. -/
abbrev PyStore := List (Finset Elem)

/-- Heap semantics of apply_operation_to_feature_set, making the source's
    `feature_set = set(feature_set)` copy explicit (line 103): the function reads the
    set object named by `ref`, allocates a fresh object holding the modified copy and
    returns a reference to it; no existing object is written. -/
def applyOpStore (st : PyStore) (ref : Nat) (i : Elem) (op : Int) : PyStore × Nat :=
  (st ++ [applyOp (st.getD ref ∅) i op], st.length)



/-- Sentinel used for the score of an empty initial set and as the running maximum of
    the step-phase candidate loop (lines 194 and 210: -9999999999.9, written as a
    quotient of integers so that the kernel can evaluate it). -/
def sentStep : ℚ := Rat.divInt (-99999999999) 10

/-- Sentinel used as the running maximum of the floating-search candidate loop
    (line 264: -99999.0). -/
def sentFloat : ℚ := Rat.divInt (-99999) 1

/-- Subtraction on scores.  Batteries marks Rat.sub irreducible, which stops kernel
    evaluation of concrete runs, so the source's score subtraction is embedded by
    this equal, reducible form; `ratSub_eq` recovers ordinary subtraction. -/
def ratSub (a b : ℚ) : ℚ := mkRat (a.num * b.den - b.num * a.den) (a.den * b.den)

/-- Addition on scores; see `ratSub`. -/
def ratAdd (a b : ℚ) : ℚ := mkRat (a.num * b.den + b.num * a.den) (a.den * b.den)



/-- One pass of a candidate loop (lines 220-233 and 270-279): toggle each id of the
    pool in iteration order, union in the constant features, skip the candidate if the
    resulting set is empty, otherwise evaluate it and keep the first strict maximum.
    Returns Python's best_feat_to_modify (initially None, hence of type `Elem`), its
    score, and the list of sets passed to the evaluation function in call order. -/
def scanCandidates (Ef : Finset Elem → ℚ) (C cur : Finset Elem) (op : Int) :
    List Elem → Elem → ℚ → Elem × ℚ × List (Finset Elem)
  | [], best, bestSc => (best, bestSc, [])
  | i :: rest, best, bestSc =>
    let nfs := applyOp cur i op ∪ C
    if nfs = ∅ then scanCandidates Ef C cur op rest best bestSc
    else
      let sc := Ef nfs
      let next := if bestSc < sc then (i, sc) else (best, bestSc)
      let r := scanCandidates Ef C cur op rest next.1 next.2
      (r.1, r.2.1, nfs :: r.2.2)

/-- The configuration errors raised by the argument-checking sections
    (lines 148-190 and 364-394). -/
inductive ConfigError
  | lengthMismatch
  | badIndices
  | badDirection
  | constantsInInitial
  | initialNotSubset
  | constantsInSpace
deriving DecidableEq

/-- Arguments of sequential_feature_selection (line 116), with the numpy inputs
    reduced to the data the algorithm inspects: shapes, whether an indices array was
    passed, and whether its dtype is an integer one. -/
structure SeqArgs where
  nSamples : Nat
  nFeatures : Nat
  lenY : Nat
  indicesGiven : Bool
  indicesInt : Bool
  direction : String
  doFloating : Bool
  initialSet : Option (Finset Nat)
  constantIds : Option (Finset Nat)
  searchSpace : Option (Finset Nat)
  overshoot : Int
  epsilon : ℚ

/-- Configuration after defaulting and validation. -/
structure SeqCfg where
  direction : String
  doFloating : Bool
  initialSet : Finset Nat
  constantIds : Finset Nat
  searchSpace : Finset Nat
  overshoot : Int
  epsilon : ℚ
deriving DecidableEq

/-- Default for constant_feature_ids (line 163): the empty set. -/
def resolvedConstants (a : SeqArgs) : Finset Nat := a.constantIds.getD ∅

/-- Default for feature_search_space (line 165): all feature ids. -/
def resolvedSpace (a : SeqArgs) : Finset Nat :=
  a.searchSpace.getD (Finset.range a.nFeatures)

/-- Default for initial_feature_set (lines 169 and 174): empty for forward search,
    all feature ids for backward search. -/
def resolvedInitialSeq (a : SeqArgs) : Finset Nat :=
  if a.direction = "forward" then a.initialSet.getD ∅
  else a.initialSet.getD (Finset.range a.nFeatures)

/-- Argument checking of sequential_feature_selection, in source order
    (lines 149-190): length mismatch, index dtype, direction, then the three
    set-relationship checks on the defaulted sets. -/
def validateSeq (a : SeqArgs) : Except ConfigError SeqCfg :=
  if a.lenY ≠ a.nSamples then .error .lengthMismatch
  else if a.indicesGiven = true ∧ a.indicesInt = false then .error .badIndices
  else if a.direction ≠ "forward" ∧ a.direction ≠ "backward" then .error .badDirection
  else
    if resolvedInitialSeq a ∩ resolvedConstants a ≠ ∅ then .error .constantsInInitial
    else if resolvedSpace a ∩ resolvedInitialSeq a ≠ resolvedInitialSeq a then
      .error .initialNotSubset
    else if resolvedSpace a ∩ resolvedConstants a ≠ ∅ then .error .constantsInSpace
    else .ok ⟨a.direction, a.doFloating, resolvedInitialSeq a, resolvedConstants a,
      resolvedSpace a, a.overshoot, a.epsilon⟩

/-- Mutable state of one sequential search, plus two ghost logs: the scores adopted
    as overall_best_score (appended at line 294) and the feature sets passed to the
    evaluation collaborator from inside the search loop (lines 229 and 275). -/
structure SeqState where
  current : Finset Elem
  remaining : Finset Elem
  scoreCur : ℚ
  overallBest : ℚ
  overallSet : Finset Elem
  counter : Int
  adoptedLog : List ℚ
  loopLog : List (Finset Elem)

/-- State before the first loop iteration (lines 192-205): the initial set scores
    the sentinel when empty, otherwise it is evaluated as passed (without the
    constant features); remaining_features is the search space minus the initial set
    for forward search and empty for backward search. -/
def seqInit (Ef : Finset Elem → ℚ) (cfg : SeqCfg) : SeqState :=
  let I := liftF cfg.initialSet
  let sc := if cfg.initialSet = ∅ then sentStep else Ef I
  { current := I
    remaining :=
      if cfg.direction = "forward" then liftF (cfg.searchSpace \ cfg.initialSet) else ∅
    scoreCur := sc
    overallBest := sc
    overallSet := I
    counter := 0
    adoptedLog := []
    loopLog := [] }

/-- The set passed to the evaluation collaborator before the loop starts (line 197),
    if any: the initial set itself, not unioned with the constant features. -/
def seqInitEvals (cfg : SeqCfg) : List (Finset Elem) :=
  if cfg.initialSet = ∅ then [] else [liftF cfg.initialSet]

/-- set_operation (lines 172 and 177): add for forward search, remove for backward. -/
def SeqCfg.setOp (cfg : SeqCfg) : Int := if cfg.direction = "forward" then 1 else -1

/-- Fuel for the floating-search while loop of one step.  Every iteration of that
    loop either exits or strictly increases score_of_current_set, and every score it
    can take lives in the image of the evaluation function on subsets of the current
    universe (or is the float sentinel), so this many iterations always reach the
    exit condition: the fuel cut is never taken on the source's behavior. -/
def floatFuel (Ef : Finset Elem → ℚ) (cfg : SeqCfg) (s : SeqState) : Nat :=
  ((((insert (Option.none : Elem)
      (s.current ∪ s.remaining ∪ liftF cfg.constantIds))).powerset).image Ef).card + 2

/-- Floating-search while loop (lines 261-291) for one outer step; `jm` is
    just_modified_feature, fixed for the whole loop.  The pool is the current set
    (forward) or the remaining set (backward) minus `jm`; the opposite toggle is
    applied to every pool member; the best strict improvement over
    score_of_current_set is adopted — note that when no candidate beats the float
    sentinel the adopted best_feat_to_modify is still Python's None. -/
def floatLoop (Ef : Finset Elem → ℚ) (cfg : SeqCfg) (jm : Elem) :
    Nat → SeqState → SeqState
  | 0, s => s
  | fuel + 1, s =>
    let fop : Int := -cfg.setOp
    let look :=
      if cfg.direction = "forward" then applyOp s.current jm (-1)
      else applyOp s.remaining jm (-1)
    let r := scanCandidates Ef (liftF cfg.constantIds) s.current fop
      (sortedList look) Option.none sentFloat
    let s1 := { s with loopLog := s.loopLog ++ r.2.2 }
    if s1.scoreCur < r.2.1 then
      let rem2 := applyOp s1.remaining r.1 (-fop)
      let cur2 := applyOp s1.current r.1 fop
      let s2 := { s1 with current := cur2, remaining := rem2, scoreCur := r.2.1 }
      if (cfg.direction = "forward" ∧ cur2.card < 1) ∨
         (cfg.direction = "backward" ∧ rem2.card < 1) then s2
      else floatLoop Ef cfg jm fuel s2
    else s1

/-- Step phase plus optional float phase of one outer iteration (lines 209-291):
    scan the admissible pool, adopt the best toggle if best_feat_to_modify is not
    None, and enter the floating search when the new score beats the overall best
    and the direction-specific set keeps at least two members. -/
def seqStepCore (Ef : Finset Elem → ℚ) (cfg : SeqCfg) (s : SeqState) : SeqState :=
  let look :=
    if cfg.direction = "forward" then sortedList s.remaining else sortedList s.current
  let r := scanCandidates Ef (liftF cfg.constantIds) s.current cfg.setOp
    look Option.none sentStep
  let s1 := { s with loopLog := s.loopLog ++ r.2.2 }
  if r.1 = Option.none then s1
  else
    let rem2 := applyOp s1.remaining r.1 (-cfg.setOp)
    let cur2 := applyOp s1.current r.1 cfg.setOp
    let s2 := { s1 with current := cur2, remaining := rem2, scoreCur := r.2.1 }
    if s1.overallBest < r.2.1 then
      if cfg.doFloating = true ∧
         ¬(cfg.direction = "forward" ∧ cur2.card < 2) ∧
         ¬(cfg.direction = "backward" ∧ rem2.card < 2) then
        floatLoop Ef cfg r.1 (floatFuel Ef cfg s2) s2
      else s2
    else s2

/-- Adoption check closing one outer iteration (lines 292-299): a local score above
    overall_best_score - epsilon is adopted (resetting the patience counter and
    recording current_features ∪ constant_feature_ids as the overall best set),
    otherwise the counter increments. -/
def seqFinalize (cfg : SeqCfg) (s : SeqState) : SeqState :=
  if ratSub s.overallBest cfg.epsilon < s.scoreCur then
    { s with overallBest := s.scoreCur
             counter := 0
             overallSet := s.current ∪ liftF cfg.constantIds
             adoptedLog := s.adoptedLog ++ [s.scoreCur] }
  else { s with counter := s.counter + 1 }

/-- One full outer iteration of the while loop (lines 208-299). -/
def seqStep (Ef : Finset Elem → ℚ) (cfg : SeqCfg) (s : SeqState) : SeqState :=
  seqFinalize cfg (seqStepCore Ef cfg s)

/-- The outer while loop run for at most `n` iterations; once the loop condition
    best_not_changed_in <= overshoot fails the state is frozen. -/
def seqIter (Ef : Finset Elem → ℚ) (cfg : SeqCfg) : Nat → SeqState → SeqState
  | 0, s => s
  | n + 1, s =>
    if s.counter ≤ cfg.overshoot then seqIter Ef cfg n (seqStep Ef cfg s) else s

/-- The outer while loop with fuel, distinguishing normal exit (the returned pair of
    line 301: sorted overall best set and its score) from running out of fuel. -/
def seqLoop (Ef : Finset Elem → ℚ) (cfg : SeqCfg) :
    Nat → SeqState → Option (Finset Elem × ℚ)
  | 0, _ => Option.none
  | n + 1, s =>
    if s.counter ≤ cfg.overshoot then seqLoop Ef cfg n (seqStep Ef cfg s)
    else Option.some (s.overallSet, s.overallBest)

/-- sequential_feature_selection down to its final state: validation, then `fuel`
    outer iterations. -/
def seqSearchFull (Ef : Finset Elem → ℚ) (a : SeqArgs) (fuel : Nat) :
    Except ConfigError SeqState :=
  (validateSeq a).map (fun cfg => seqIter Ef cfg fuel (seqInit Ef cfg))

/-- sequential_feature_selection as seen by the caller, paired with the full list of
    sets passed to the evaluation collaborator; on a configuration error that list is
    empty because validation precedes every evaluation call in the source. -/
def seqSearch (Ef : Finset Elem → ℚ) (a : SeqArgs) (fuel : Nat) :
    Except ConfigError (Finset Elem × ℚ) × List (Finset Elem) :=
  match validateSeq a with
  | .error e => (.error e, [])
  | .ok cfg =>
    let st := seqIter Ef cfg fuel (seqInit Ef cfg)
    (.ok (st.overallSet, st.overallBest), seqInitEvals cfg ++ st.loopLog)

/-- Arguments of best_first_search (line 303); there is no direction parameter. -/
structure BfsArgs where
  nSamples : Nat
  nFeatures : Nat
  lenY : Nat
  indicesGiven : Bool
  indicesInt : Bool
  doCompound : Bool
  initialSet : Option (Finset Nat)
  constantIds : Option (Finset Nat)
  searchSpace : Option (Finset Nat)
  overshoot : Int
  epsilon : ℚ

/-- best_first_search configuration after defaulting and validation. -/
structure BfsCfg where
  doCompound : Bool
  initialSet : Finset Nat
  constantIds : Finset Nat
  searchSpace : Finset Nat
  overshoot : Int
  epsilon : ℚ
deriving DecidableEq

/-- Default for best_first_search constant_feature_ids (line 376). -/
def resolvedConstantsBfs (a : BfsArgs) : Finset Nat := a.constantIds.getD ∅

/-- Default for best_first_search feature_search_space (line 378). -/
def resolvedSpaceBfs (a : BfsArgs) : Finset Nat :=
  a.searchSpace.getD (Finset.range a.nFeatures)

/-- Default for best_first_search initial_feature_set (line 380): the empty set. -/
def resolvedInitialBfs (a : BfsArgs) : Finset Nat := a.initialSet.getD ∅

/-- Argument checking of best_first_search (lines 365-394): as for the sequential
    search but with no direction check, and the initial set defaults to empty. -/
def validateBfs (a : BfsArgs) : Except ConfigError BfsCfg :=
  if a.lenY ≠ a.nSamples then .error .lengthMismatch
  else if a.indicesGiven = true ∧ a.indicesInt = false then .error .badIndices
  else
    if resolvedInitialBfs a ∩ resolvedConstantsBfs a ≠ ∅ then .error .constantsInInitial
    else if resolvedSpaceBfs a ∩ resolvedInitialBfs a ≠ resolvedInitialBfs a then
      .error .initialNotSubset
    else if resolvedSpaceBfs a ∩ resolvedConstantsBfs a ≠ ∅ then .error .constantsInSpace
    else .ok ⟨a.doCompound, resolvedInitialBfs a, resolvedConstantsBfs a,
      resolvedSpaceBfs a, a.overshoot, a.epsilon⟩

/-- State of one best-first search, plus two ghost logs: the sets passed to the
    evaluation collaborator when scoring expansion children (line 352) and when
    scoring compound children (line 455). -/
structure BfsState where
  openL : List (Finset Elem)
  openScores : List ℚ
  closedL : List (Finset Elem)
  best : Finset Elem
  bestScore : ℚ
  counter : Int
  childLog : List (Finset Elem)
  compLog : List (Finset Elem)

/-- Outcomes of the best-first main loop: normal return (line 467), the ValueError
    of np.argmax on an empty open list (line 356), the IndexError of
    list(modified_feature)[0] on an empty difference (line 449), or fuel exhaustion
    of the model. -/
inductive BfsRes
  | result : Finset Elem → ℚ → BfsRes
  | argmaxEmpty : BfsRes
  | headEmpty : BfsRes
  | outOfFuel : BfsRes
deriving DecidableEq

/-- np.argmax on a list of scores: index of the first maximal entry (0 on []). -/
def argmaxIdx (l : List ℚ) : Nat :=
  (l.foldl
    (fun acc v => if acc.2.2 < v then (acc.1 + 1, acc.1, v) else (acc.1 + 1, acc.2.1, acc.2.2))
    ((0 : Nat), (0 : Nat), l.headD 0)).2.1

/-- expand_node (lines 333-347): children obtained by removing each feature of the
    node (kept when novel and nonempty), then by adding each feature of the
    symmetric difference between the search space and the node (kept when novel);
    novelty is tested against the open and closed lists as they stand after the node
    was popped and appended to the closed list. -/
def expandNode (space node : Finset Elem) (openL closedL : List (Finset Elem)) :
    List (Finset Elem) :=
  let rem := (sortedList node).filterMap (fun f =>
    let c := node.erase f
    if c ∉ openL ∧ c ∉ closedL ∧ 0 < c.card then Option.some c else Option.none)
  let add := (sortedList ((space \ node) ∪ (node \ space))).filterMap (fun f =>
    let c := insert f node
    if c ∉ openL ∧ c ∉ closedL then Option.some c else Option.none)
  rem ++ add

/-- Compound-operator sub-loop (lines 437-465): repeatedly pop the next best child
    of this expansion batch, find the single feature separating it from the expanded
    node, apply the same toggle to the adopted best set, and push/adopt the compound
    child when it is nonempty, novel and improving.  Each iteration pops one child,
    so fuel = length of the children list + 1 always reaches the exit condition;
    `.error ()` models the IndexError on an empty symmetric difference. -/
def compoundLoop (Ef : Finset Elem → ℚ) (cfg : BfsCfg) (node : Finset Elem) :
    Nat → List (Finset Elem) → List ℚ → BfsState → Except Unit BfsState
  | 0, _, _, st => .ok st
  | _ + 1, [], _, st => .ok st
  | fuel + 1, c0 :: crest, scores, st =>
    let children := c0 :: crest
    let idb := argmaxIdx scores
    let bc := children.getD idb ∅
    let children2 := children.eraseIdx idb
    let scores2 := scores.eraseIdx idb
    let md := (bc \ node) ∪ (node \ bc)
    let op : Int := if bc.card < node.card then -1 else 1
    match (sortedList md).head? with
    | Option.none => .error ()
    | Option.some f =>
      let cc := applyOp st.best f op
      if cc.card < 1 then .ok st
      else if cc ∈ st.openL ∨ cc ∈ st.closedL then .ok st
      else
        let sc := Ef cc
        let st2 := { st with openL := st.openL ++ [cc]
                             openScores := st.openScores ++ [sc]
                             compLog := st.compLog ++ [cc] }
        if ratAdd st.bestScore cfg.epsilon < sc then
          compoundLoop Ef cfg node fuel children2 scores2
            { st2 with best := cc, bestScore := sc }
        else .ok st2

/-- Main loop of best_first_search (lines 412-465): pop the best open node into the
    closed list, expand it, score the novel children with the constant features
    unioned in, push them, count a childless expansion as a non-improving iteration,
    otherwise adopt the best child when it beats the best score by more than epsilon
    (then optionally run the compound sub-loop). -/
def bfsLoop (Ef : Finset Elem → ℚ) (cfg : BfsCfg) : Nat → BfsState → BfsRes × BfsState
  | 0, st => (BfsRes.outOfFuel, st)
  | fuel + 1, st =>
    if st.counter ≤ cfg.overshoot then
      if st.openScores = [] then (BfsRes.argmaxEmpty, st)
      else
        let idx := argmaxIdx st.openScores
        let node := st.openL.getD idx ∅
        let open2 := st.openL.eraseIdx idx
        let scores2 := st.openScores.eraseIdx idx
        let closed2 := st.closedL ++ [node]
        let children := expandNode (liftF cfg.searchSpace) node open2 closed2
        let newScores := children.map (fun c => Ef (c ∪ liftF cfg.constantIds))
        let st2 := { st with openL := open2 ++ children
                             openScores := scores2 ++ newScores
                             closedL := closed2
                             childLog := st.childLog ++
                               children.map (fun c => c ∪ liftF cfg.constantIds) }
        if children = [] then
          bfsLoop Ef cfg fuel { st2 with counter := st2.counter + 1 }
        else
          let idb := argmaxIdx newScores
          if ratAdd st.bestScore cfg.epsilon < newScores.getD idb 0 then
            let st3 := { st2 with best := children.getD idb ∅
                                  bestScore := newScores.getD idb 0
                                  counter := 0 }
            if cfg.doCompound = true then
              match compoundLoop Ef cfg node (children.length + 1)
                      (children.eraseIdx idb) (newScores.eraseIdx idb) st3 with
              | .error _ => (BfsRes.headEmpty, st3)
              | .ok st4 => bfsLoop Ef cfg fuel st4
            else bfsLoop Ef cfg fuel st3
          else bfsLoop Ef cfg fuel { st2 with counter := st2.counter + 1 }
    else (BfsRes.result st.best st.bestScore, st)

/-- State before the first best-first iteration (lines 396-411): the initial set
    scores the sentinel when empty, otherwise it is evaluated as passed (without the
    constant features); it seeds the open list and the best-found state. -/
def bfsInit (Ef : Finset Elem → ℚ) (cfg : BfsCfg) : BfsState :=
  let I := liftF cfg.initialSet
  let sc := if cfg.initialSet = ∅ then sentStep else Ef I
  { openL := [I], openScores := [sc], closedL := []
    best := I, bestScore := sc, counter := 0, childLog := [], compLog := [] }

/-- The set passed to the evaluation collaborator before the best-first loop starts
    (line 401), if any: the initial set itself, without the constant features. -/
def bfsInitEvals (cfg : BfsCfg) : List (Finset Elem) :=
  if cfg.initialSet = ∅ then [] else [liftF cfg.initialSet]

/-- best_first_search as seen by the caller, paired with the full list of sets
    passed to the evaluation collaborator; on a configuration error that list is
    empty because validation precedes every evaluation call in the source. -/
def bfsSearch (Ef : Finset Elem → ℚ) (a : BfsArgs) (fuel : Nat) :
    Except ConfigError BfsRes × List (Finset Elem) :=
  match validateBfs a with
  | .error e => (.error e, [])
  | .ok cfg =>
    let r := bfsLoop Ef cfg fuel (bfsInit Ef cfg)
    (.ok r.1, bfsInitEvals cfg ++ r.2.childLog ++ r.2.compLog)

/-- Projection of an Except result onto its error, if any. -/
def errOf {α : Type} : Except ConfigError α → Option ConfigError
  | .error e => Option.some e
  | .ok _ => Option.none

/-- Projection of an Except result onto its value, if any. -/
def okOf {α : Type} : Except ConfigError α → Option α
  | .error _ => Option.none
  | .ok v => Option.some v

/-- Evaluation collaborator returning 0 on every set. -/
def evalZero : Finset Elem → ℚ := fun _ => 0

/-- best_first_search call on a one-feature dataset with default arguments. -/
def argsC3 : BfsArgs :=
  ⟨4, 1, 4, false, true, false, Option.none, Option.none, Option.none, 3, 0⟩

/-- best_first_search call with a constant feature id 5, two features, overshoot 0. -/
def argsC1 : BfsArgs :=
  ⟨4, 2, 4, false, true, false, Option.none, Option.some {5}, Option.none, 0, 0⟩

/-- Evaluation collaborator used for the floating-search sentinel scenario: every
    score is far below the float sentinel -99999.0. -/
def evalC9 : Finset Elem → ℚ := fun s =>
  if s = {Option.some 0} then -200000
  else if s = {Option.some 1} then -300000
  else if s = {Option.some 0, Option.some 1} then -150000
  else 0

/-- sequential_feature_selection call: forward, two features, all defaults. -/
def argsC9 : SeqArgs :=
  ⟨3, 2, 3, false, true, "forward", true, Option.none, Option.none, Option.none, 3, 0⟩

/-- sequential_feature_selection call with a nonempty initial set {0} and a constant
    feature id 1 (search space {0} so that the configuration validates). -/
def argsC2x : SeqArgs :=
  ⟨3, 2, 3, false, true, "forward", true, Option.some {0}, Option.some {1},
    Option.some {0}, 3, 0⟩

/-- Evaluation collaborator for the adopted-score scenario: the first adopted set
    scores 10, the second 5. -/
def evalC5 : Finset Elem → ℚ := fun s =>
  if s = {Option.some 0} then 10
  else if s = {Option.some 0, Option.some 1} then 5
  else 0

/-- sequential_feature_selection call with epsilon = 6, two features, forward. -/
def argsC5x : SeqArgs :=
  ⟨3, 2, 3, false, true, "forward", true, Option.none, Option.none, Option.none, 3, 6⟩

/-- sequential_feature_selection call: backward, one feature, constant id 1; the
    defaulted initial set is {0}, so removing feature 0 empties the current set. -/
def argsC7x : SeqArgs :=
  ⟨3, 1, 3, false, true, "backward", true, Option.none, Option.some {1},
    Option.none, 3, 0⟩

/-- sequential_feature_selection call: backward, initial set left defaulted, search
    space {1} omitting feature 0, constant id 0. -/
def argsC10x : SeqArgs :=
  ⟨3, 2, 3, false, true, "backward", true, Option.none, Option.some {0},
    Option.some {1}, 3, 0⟩

/-- sequential_feature_selection call: forward, one feature, overshoot 0 and
    epsilon 1/2. -/
def argsC4 : SeqArgs :=
  ⟨2, 1, 2, false, true, "forward", true, Option.none, Option.none, Option.none, 0,
    Rat.divInt 1 2⟩

/-- The configuration argsC4 resolves to. -/
def cfgC4 : SeqCfg := ⟨"forward", true, ∅, ∅, {0}, 0, Rat.divInt 1 2⟩

/-- The inputs on which sequential_feature_selection raises a configuration error:
    sample/label length mismatch, a non-integer indices array, an unrecognized
    direction, or one of the three set-relationship invariants violated on the
    defaulted sets. -/
def seqErrConds (a : SeqArgs) : Prop :=
  a.lenY ≠ a.nSamples ∨ (a.indicesGiven = true ∧ a.indicesInt = false) ∨
  (a.direction ≠ "forward" ∧ a.direction ≠ "backward") ∨
  resolvedInitialSeq a ∩ resolvedConstants a ≠ ∅ ∨
  resolvedSpace a ∩ resolvedInitialSeq a ≠ resolvedInitialSeq a ∨
  resolvedSpace a ∩ resolvedConstants a ≠ ∅

/-- The inputs on which best_first_search raises a configuration error (no direction
    argument exists there). -/
def bfsErrConds (a : BfsArgs) : Prop :=
  a.lenY ≠ a.nSamples ∨ (a.indicesGiven = true ∧ a.indicesInt = false) ∨
  resolvedInitialBfs a ∩ resolvedConstantsBfs a ≠ ∅ ∨
  resolvedSpaceBfs a ∩ resolvedInitialBfs a ≠ resolvedInitialBfs a ∨
  resolvedSpaceBfs a ∩ resolvedConstantsBfs a ≠ ∅

/-- sequential_feature_selection call whose initial set {0} overlaps the constant
    set {0}. -/
def argsC6s : SeqArgs :=
  ⟨3, 2, 3, false, true, "forward", true, Option.some {0}, Option.some {0},
    Option.none, 3, 0⟩

/-- best_first_search call whose initial set {0} overlaps the constant set {0}. -/
def argsC6b : BfsArgs :=
  ⟨3, 2, 3, false, true, false, Option.some {0}, Option.some {0}, Option.none, 3, 0⟩

/-- sequential_feature_selection call: backward, defaulted initial set, no constant
    features, search space {1} omitting feature 0 of a two-feature dataset. -/
def argsC10w : SeqArgs :=
  ⟨3, 2, 3, false, true, "backward", true, Option.none, Option.none,
    Option.some {1}, 3, 0⟩

/-- The configuration argsC7x resolves to: backward over one feature with the
    constant feature id 1. -/
def cfgC7x : SeqCfg := ⟨"backward", true, {0}, {1}, {0}, 3, 0⟩

/-- The configuration argsC1 resolves to. -/
def cfgC1b : BfsCfg := ⟨false, ∅, {5}, {0, 1}, 0, 0⟩

/-- Universe of set elements a sequential search can ever touch: the feature ids of
    the initial set, the search space and the constant set, plus Python None (which
    the float phase can adopt). -/
def seqU (cfg : SeqCfg) : Finset Elem :=
  insert Option.none (liftF (cfg.initialSet ∪ cfg.searchSpace ∪ cfg.constantIds))

/-- Universe of score values a sequential search can ever hold: the two sentinels
    and the image of the evaluation function on subsets of `seqU`. -/
def seqSU (Ef : Finset Elem → ℚ) (cfg : SeqCfg) : Finset ℚ :=
  insert sentStep (insert sentFloat (((seqU cfg).powerset).image Ef))

/-- Data invariant of a sequential search state: the current and remaining sets
    stay inside the element universe, the two score registers stay inside the score
    universe, and the patience counter is non-negative. -/
def SeqInv (Ef : Finset Elem → ℚ) (cfg : SeqCfg) (s : SeqState) : Prop :=
  s.current ⊆ seqU cfg ∧ s.remaining ⊆ seqU cfg ∧ s.scoreCur ∈ seqSU Ef cfg ∧
  s.overallBest ∈ seqSU Ef cfg ∧ 0 ≤ s.counter

/-- Termination measure of the outer while loop for epsilon = 0: the patience left
    in this streak plus (overshoot + 2) for every score value still strictly above
    the overall best. -/
def seqMeasure (Ef : Finset Elem → ℚ) (cfg : SeqCfg) (s : SeqState) : Nat :=
  (cfg.overshoot + 1 - s.counter).toNat +
    (cfg.overshoot + 2).toNat *
      ((seqSU Ef cfg).filter (fun q => s.overallBest < q)).card

-- ------------------------------------------------------------------
-- Basic lemmas
-- ------------------------------------------------------------------


theorem keyElem_elemKey (e : Elem) : keyElem (elemKey e) = e := by
  cases e <;> rfl


theorem mem_msKeys {k : Nat} {m : Multiset Elem} :
    k ∈ msKeys m ↔ k ∈ m.map elemKey := by
  induction m using Quot.inductionOn with
  | h l =>
    show k ∈ List.insertionSort (· ≤ ·) (l.map elemKey) ↔ _
    rw [(List.perm_insertionSort (· ≤ ·) (l.map elemKey)).mem_iff]
    simp


theorem mem_sortedList {a : Elem} {s : Finset Elem} : a ∈ sortedList s ↔ a ∈ s := by
  unfold sortedList
  constructor
  · intro h
    rcases List.mem_map.1 h with ⟨k, hk, hka⟩
    rcases Multiset.mem_map.1 (mem_msKeys.1 hk) with ⟨b, hb, hbk⟩
    rw [← hka, ← hbk, keyElem_elemKey]
    exact hb
  · intro h
    refine List.mem_map.2 ⟨elemKey a, ?_, keyElem_elemKey a⟩
    exact mem_msKeys.2 (Multiset.mem_map.2 ⟨a, h, rfl⟩)


theorem applyOp_subset_insert (s : Finset Elem) (i : Elem) (op : Int) :
    applyOp s i op ⊆ insert i s := by
  unfold applyOp
  split
  · split
    · exact Finset.subset_insert _ _
    · exact Finset.Subset.refl _
  · split
    · exact Finset.subset_insert _ _
    · exact (Finset.erase_subset _ _).trans (Finset.subset_insert _ _)


theorem applyOp_subset_of_remove (s : Finset Elem) (i : Elem) {op : Int} (h : op ≠ 1) :
    applyOp s i op ⊆ s := by
  unfold applyOp
  rw [if_neg h]
  split
  · exact Finset.Subset.refl _
  · exact Finset.erase_subset _ _


theorem ratSub_eq (a b : ℚ) : ratSub a b = a - b := (Rat.sub_def' a b).symm


theorem ratAdd_eq (a b : ℚ) : ratAdd a b = a + b := (Rat.add_def' a b).symm


theorem applyOp_eq (s : Finset Elem) (i : Elem) (op : Int) :
    applyOp s i op = if op = 1 then insert i s else s.erase i := by
  unfold applyOp
  split
  · split
    · exact (Finset.insert_eq_self.2 (by assumption)).symm
    · rfl
  · split
    · exact (Finset.erase_eq_self.2 (by assumption)).symm
    · rfl

theorem validateSeq_ok_not_err {a : SeqArgs} {cfg : SeqCfg}
    (h : validateSeq a = Except.ok cfg) : ¬ seqErrConds a := by
  intro hc
  unfold validateSeq at h
  split_ifs at h with h1 h2 h3 h4 h5 h6
  rcases hc with hc | hc | hc | hc | hc | hc
  · exact h1 hc
  · exact h2 hc
  · exact h3 hc
  · exact h4 hc
  · exact h5 hc
  · exact h6 hc

theorem validateBfs_ok_not_err {a : BfsArgs} {cfg : BfsCfg}
    (h : validateBfs a = Except.ok cfg) : ¬ bfsErrConds a := by
  intro hc
  unfold validateBfs at h
  split_ifs at h with h1 h2 h3 h4 h5
  rcases hc with hc | hc | hc | hc | hc
  · exact h1 hc
  · exact h2 hc
  · exact h3 hc
  · exact h4 hc
  · exact h5 hc

/-- C6: on every input exhibiting a configuration error (length mismatch,
    non-integer index array, unrecognized direction, or a violated set-relationship
    invariant), sequential_feature_selection and best_first_search return that error
    with an empty evaluation trace: the evaluation collaborator is never invoked,
    because validation precedes all search work. -/
theorem c6_config_errors_block_search (Ef : Finset Elem → ℚ) (a : SeqArgs)
    (b : BfsArgs) (n m : Nat) (hs : seqErrConds a) (hb : bfsErrConds b) :
    (∃ e, seqSearch Ef a n = (Except.error e, [])) ∧
    (∃ e, bfsSearch Ef b m = (Except.error e, [])) := by
  constructor
  · match hval : validateSeq a with
    | .error e => exact ⟨e, by simp [seqSearch, hval]⟩
    | .ok cfg => exact absurd hs (validateSeq_ok_not_err hval)
  · match hval : validateBfs b with
    | .error e => exact ⟨e, by simp [bfsSearch, hval]⟩
    | .ok cfg => exact absurd hb (validateBfs_ok_not_err hval)

theorem c6_config_errors_block_search_witness :
    (∃ e, seqSearch evalZero argsC6s 1 = (Except.error e, [])) ∧
    (∃ e, bfsSearch evalZero argsC6b 1 = (Except.error e, [])) :=
  c6_config_errors_block_search evalZero argsC6s argsC6b 1 1
    (Or.inr (Or.inr (Or.inr (Or.inl (by decide)))))
    (Or.inr (Or.inr (Or.inl (by decide))))

/-- C10 (counterexample): a backward call with defaulted initial set over a search
    space omitting feature 0 raises the constants-overlap error, not the
    subset-relation error, because the defaulted initial set is all features and is
    checked against constant_feature_ids first. -/
theorem c10_backward_restricted_space_other_error :
    errOf (validateSeq argsC10x) = Option.some ConfigError.constantsInInitial ∧
    argsC10x.direction = "backward" ∧ argsC10x.initialSet = Option.none ∧
    0 ∈ Finset.range argsC10x.nFeatures ∧ 0 ∉ resolvedSpace argsC10x ∧
    ConfigError.constantsInInitial ≠ ConfigError.initialNotSubset := by
  refine ⟨by decide, rfl, rfl, by decide, by decide, by decide⟩

/-- C10 (amended): a backward call with defaulted initial set whose search space
    omits a feature id always raises a configuration error; it is the
    subset-relation error exactly when the earlier checks pass, in particular when
    constant_feature_ids does not meet the full feature range. -/
theorem c10_backward_defaulted_initial_not_subset (a : SeqArgs)
    (h1 : a.lenY = a.nSamples) (h2 : a.indicesGiven = true → a.indicesInt = true)
    (h3 : a.direction = "backward") (h4 : a.initialSet = Option.none)
    (h5 : Finset.range a.nFeatures ∩ resolvedConstants a = ∅)
    (h6 : ∃ j, j ∈ Finset.range a.nFeatures ∧ j ∉ resolvedSpace a) :
    validateSeq a = Except.error ConfigError.initialNotSubset := by
  have hI : resolvedInitialSeq a = Finset.range a.nFeatures := by
    unfold resolvedInitialSeq
    rw [h3, h4]
    simp
  unfold validateSeq
  rw [if_neg (by simp [h1])]
  rw [if_neg (by rintro ⟨hg, hi⟩; rw [h2 hg] at hi; cases hi)]
  rw [if_neg (by rintro ⟨_, hbwd⟩; exact hbwd h3)]
  rw [if_neg (by rw [hI]; simpa using h5)]
  rw [if_pos]
  obtain ⟨j, hj, hjs⟩ := h6
  intro heq
  rw [hI] at heq
  exact hjs (Finset.mem_of_mem_inter_left (heq.symm ▸ hj))

theorem c10_backward_defaulted_initial_not_subset_witness :
    validateSeq argsC10w = Except.error ConfigError.initialNotSubset :=
  c10_backward_defaulted_initial_not_subset argsC10w rfl (by decide) rfl rfl
    (by decide) ⟨0, by decide, by decide⟩

/-- C8: apply_operation_to_feature_set copies its argument before modifying it: the
    returned reference is fresh, every previously allocated set object is unchanged,
    and the new object holds the insertion (op = 1) or removal (op = -1) result. -/
theorem c8_apply_operation_copy_on_write (st : PyStore) (ref : Nat) (i : Elem)
    (op : Int) (_h : op = 1 ∨ op = -1) :
    (applyOpStore st ref i op).2 = st.length ∧
    st.length < (applyOpStore st ref i op).1.length ∧
    (∀ j, j < st.length → (applyOpStore st ref i op).1.get? j = st.get? j) ∧
    (applyOpStore st ref i op).1.getD (applyOpStore st ref i op).2 ∅ =
      (if op = 1 then insert i (st.getD ref ∅) else (st.getD ref ∅).erase i) := by
  refine ⟨rfl, by simp [applyOpStore], ?_, ?_⟩
  · intro j hj
    exact List.get?_append hj
  · show (st ++ [applyOp (st.getD ref ∅) i op]).getD st.length ∅ = _
    rw [List.getD, List.get?_append_right (Nat.le_refl _)]
    simp [applyOp_eq]

theorem c8_apply_operation_copy_on_write_witness :
    ((1 : Int) = 1 ∨ (1 : Int) = -1) ∧
    ((applyOpStore [{Option.some 0}] 0 (Option.some 1) 1).2 = 1 ∧
     1 < (applyOpStore [{Option.some 0}] 0 (Option.some 1) 1).1.length ∧
     (∀ j, j < List.length [({Option.some 0} : Finset Elem)] →
       (applyOpStore [{Option.some 0}] 0 (Option.some 1) 1).1.get? j =
         [({Option.some 0} : Finset Elem)].get? j) ∧
     (applyOpStore [{Option.some 0}] 0 (Option.some 1) 1).1.getD
         (applyOpStore [{Option.some 0}] 0 (Option.some 1) 1).2 ∅ =
       (if (1 : Int) = 1 then insert (Option.some 1) ({Option.some 0} : Finset Elem)
        else ({Option.some 0} : Finset Elem).erase (Option.some 1))) :=
  ⟨Or.inl rfl,
    c8_apply_operation_copy_on_write [{Option.some 0}] 0 (Option.some 1) 1 (Or.inl rfl)⟩

/-- C1: best_first_search drops the constant features from its return value: with
    constant_feature_ids = {5} the returned best set is {0}, which does not contain
    the constants, contradicting the documented guarantee that they are always
    included. -/
theorem c1_bfs_drops_constants :
    okOf (bfsSearch evalZero argsC1 10).1 =
      Option.some (BfsRes.result {Option.some 0} 0) ∧
    liftF (resolvedConstantsBfs argsC1) = {Option.some 5} ∧
    ¬ ({Option.some 5} : Finset Elem) ⊆ {Option.some 0} := by
  refine ⟨by decide, by decide, by decide⟩

/-- C3: on a one-feature dataset with default arguments, best_first_search exhausts
    its open list after three iterations while the patience counter is still below
    overshoot, and np.argmax is applied to an empty list: the call raises instead of
    returning its best-found result. -/
theorem c3_bfs_open_list_crash :
    okOf (bfsSearch evalZero argsC3 10).1 = Option.some BfsRes.argmaxEmpty := by decide

/-- C9: in a validated forward run whose evaluation scores all lie below the float
    sentinel -99999.0, the floating search adopts best_feat_to_modify = None and
    inserts it into remaining_features: after two outer iterations remaining is
    {None} while current is {0, 1}, so current and remaining no longer partition the
    feature search space. -/
theorem c9_float_sentinel_breaks_partition :
    (okOf (seqSearchFull evalC9 argsC9 2)).map SeqState.remaining =
      Option.some {Option.none} ∧
    (okOf (seqSearchFull evalC9 argsC9 2)).map (fun st => sortedList st.current) =
      Option.some [Option.some 0, Option.some 1] ∧
    ({Option.some 0, Option.some 1} : Finset Elem) ∪ {Option.none} ≠
      liftF (resolvedSpace argsC9) := by
  refine ⟨by decide, by decide, by decide⟩

/-- C2 (counterexample): with initial_feature_set = {0} and constant_feature_ids =
    {1}, the first set passed to the evaluation collaborator is {0} alone: the
    initial-set evaluation does not include the constant features. -/
theorem c2_initial_eval_lacks_constants :
    (seqSearch evalZero argsC2x 1).2.head? = Option.some {Option.some 0} ∧
    liftF (resolvedConstants argsC2x) = {Option.some 1} ∧
    ¬ ({Option.some 1} : Finset Elem) ⊆ {Option.some 0} := by
  refine ⟨by decide, by decide, by decide⟩

/-- C5 (counterexample): with epsilon = 6 the adoption threshold lies below the
    current overall best, so the adopted overall_best_score sequence [10, 5] is
    decreasing. -/
theorem c5_adopted_scores_can_decrease :
    (okOf (seqSearchFull evalC5 argsC5x 2)).map SeqState.adoptedLog =
      Option.some [10, 5] ∧
    ¬ List.Chain' (· ≤ ·) [(10 : ℚ), 5] := by
  refine ⟨by decide, ?_⟩
  intro h
  have h10 : (10 : ℚ) ≤ 5 := (List.chain'_cons.mp h).1
  norm_num at h10

/-- C7 (counterexample): in a backward run with current set {0} and constant set
    {1}, the candidate that removes feature 0 empties the current set, yet it is
    submitted to the evaluation collaborator as {1} because the emptiness test runs
    after the constants are unioned in. -/
theorem c7_empty_toggle_scored_with_constants :
    (okOf (seqSearchFull evalZero argsC7x 1)).map SeqState.loopLog =
      Option.some [{Option.some 1}] ∧
    applyOp {Option.some 0} (Option.some 0) (-1) = ∅ ∧
    liftF (resolvedInitialSeq argsC7x) = {Option.some 0} := by
  refine ⟨by decide, by decide, by decide⟩

theorem scanCandidates_cons (Ef : Finset Elem → ℚ) (C cur : Finset Elem) (op : Int)
    (i : Elem) (rest : List Elem) (b : Elem) (q : ℚ) :
    scanCandidates Ef C cur op (i :: rest) b q =
      if applyOp cur i op ∪ C = ∅ then scanCandidates Ef C cur op rest b q
      else
        let sc := Ef (applyOp cur i op ∪ C)
        let next := if q < sc then (i, sc) else (b, q)
        let r := scanCandidates Ef C cur op rest next.1 next.2
        (r.1, r.2.1, (applyOp cur i op ∪ C) :: r.2.2) := rfl

theorem scanCandidates_log_spec (Ef : Finset Elem → ℚ) (C cur : Finset Elem)
    (op : Int) :
    ∀ (looks : List Elem) (b : Elem) (q : ℚ) (t : Finset Elem),
    t ∈ (scanCandidates Ef C cur op looks b q).2.2 →
    C ⊆ t ∧ t ≠ ∅ ∧ ∃ i ∈ looks, t = applyOp cur i op ∪ C := by
  intro looks
  induction looks with
  | nil => intro b q t ht; cases ht
  | cons i rest ih =>
    intro b q t ht
    rw [scanCandidates_cons] at ht
    by_cases hn : applyOp cur i op ∪ C = ∅
    · rw [if_pos hn] at ht
      obtain ⟨h1, h2, j, hj, h3⟩ := ih b q t ht
      exact ⟨h1, h2, j, List.mem_cons_of_mem _ hj, h3⟩
    · rw [if_neg hn] at ht
      simp only [] at ht
      rcases List.mem_cons.1 ht with h | h
      · exact ⟨h ▸ Finset.subset_union_right, h ▸ hn, i, List.mem_cons_self _ _, h⟩
      · obtain ⟨h1, h2, j, hj, h3⟩ := ih _ _ t h
        exact ⟨h1, h2, j, List.mem_cons_of_mem _ hj, h3⟩

theorem scanCandidates_best_mem (Ef : Finset Elem → ℚ) (C cur : Finset Elem)
    (op : Int) :
    ∀ (looks : List Elem) (b : Elem) (q : ℚ),
    (scanCandidates Ef C cur op looks b q).1 = b ∨
    (scanCandidates Ef C cur op looks b q).1 ∈ looks := by
  intro looks
  induction looks with
  | nil => intro b q; exact Or.inl rfl
  | cons i rest ih =>
    intro b q
    rw [scanCandidates_cons]
    by_cases hn : applyOp cur i op ∪ C = ∅
    · rw [if_pos hn]
      rcases ih b q with h | h
      · exact Or.inl h
      · exact Or.inr (List.mem_cons_of_mem _ h)
    · rw [if_neg hn]
      simp only []
      by_cases hq : q < Ef (applyOp cur i op ∪ C)
      · rw [if_pos hq]
        rcases ih i (Ef (applyOp cur i op ∪ C)) with h | h
        · exact Or.inr (by rw [h]; exact List.mem_cons_self _ _)
        · exact Or.inr (List.mem_cons_of_mem _ h)
      · rw [if_neg hq]
        rcases ih b q with h | h
        · exact Or.inl h
        · exact Or.inr (List.mem_cons_of_mem _ h)

theorem scanCandidates_score_spec (Ef : Finset Elem → ℚ) (C cur : Finset Elem)
    (op : Int) :
    ∀ (looks : List Elem) (b : Elem) (q : ℚ),
    (scanCandidates Ef C cur op looks b q).2.1 = q ∨
    ∃ i ∈ looks,
      (scanCandidates Ef C cur op looks b q).2.1 = Ef (applyOp cur i op ∪ C) := by
  intro looks
  induction looks with
  | nil => intro b q; exact Or.inl rfl
  | cons i rest ih =>
    intro b q
    rw [scanCandidates_cons]
    by_cases hn : applyOp cur i op ∪ C = ∅
    · rw [if_pos hn]
      rcases ih b q with h | ⟨j, hj, h⟩
      · exact Or.inl h
      · exact Or.inr ⟨j, List.mem_cons_of_mem _ hj, h⟩
    · rw [if_neg hn]
      simp only []
      by_cases hq : q < Ef (applyOp cur i op ∪ C)
      · rw [if_pos hq]
        rcases ih i (Ef (applyOp cur i op ∪ C)) with h | ⟨j, hj, h⟩
        · exact Or.inr ⟨i, List.mem_cons_self _ _, h⟩
        · exact Or.inr ⟨j, List.mem_cons_of_mem _ hj, h⟩
      · rw [if_neg hq]
        rcases ih b q with h | ⟨j, hj, h⟩
        · exact Or.inl h
        · exact Or.inr ⟨j, List.mem_cons_of_mem _ hj, h⟩

theorem floatLoop_loopLog (Ef : Finset Elem → ℚ) (cfg : SeqCfg) (jm : Elem) :
    ∀ (fuel : Nat) (s : SeqState),
    (∀ t ∈ s.loopLog, liftF cfg.constantIds ⊆ t ∧ t ≠ ∅) →
    ∀ t ∈ (floatLoop Ef cfg jm fuel s).loopLog, liftF cfg.constantIds ⊆ t ∧ t ≠ ∅ := by
  intro fuel
  induction fuel with
  | zero => intro s hs; exact hs
  | succ n ih =>
    intro s hs
    rw [floatLoop]
    simp only []
    split_ifs
    all_goals
      first
      | (apply ih
         intro t ht
         rcases List.mem_append.1 ht with h | h
         · exact hs t h
         · obtain ⟨ha, hb, _⟩ := scanCandidates_log_spec Ef _ _ _ _ _ _ t h
           exact ⟨ha, hb⟩)
      | (intro t ht
         rcases List.mem_append.1 ht with h | h
         · exact hs t h
         · obtain ⟨ha, hb, _⟩ := scanCandidates_log_spec Ef _ _ _ _ _ _ t h
           exact ⟨ha, hb⟩)

theorem seqFinalize_loopLog (cfg : SeqCfg) (s : SeqState) :
    (seqFinalize cfg s).loopLog = s.loopLog := by
  unfold seqFinalize
  split_ifs <;> rfl

theorem seqStepCore_loopLog (Ef : Finset Elem → ℚ) (cfg : SeqCfg) (s : SeqState)
    (hs : ∀ t ∈ s.loopLog, liftF cfg.constantIds ⊆ t ∧ t ≠ ∅) :
    ∀ t ∈ (seqStepCore Ef cfg s).loopLog, liftF cfg.constantIds ⊆ t ∧ t ≠ ∅ := by
  rw [seqStepCore]
  simp only []
  split_ifs
  all_goals
    first
    | (apply floatLoop_loopLog
       intro t ht
       rcases List.mem_append.1 ht with h | h
       · exact hs t h
       · obtain ⟨ha, hb, _⟩ := scanCandidates_log_spec Ef _ _ _ _ _ _ t h
         exact ⟨ha, hb⟩)
    | (intro t ht
       rcases List.mem_append.1 ht with h | h
       · exact hs t h
       · obtain ⟨ha, hb, _⟩ := scanCandidates_log_spec Ef _ _ _ _ _ _ t h
         exact ⟨ha, hb⟩)

theorem seqStep_loopLog (Ef : Finset Elem → ℚ) (cfg : SeqCfg) (s : SeqState)
    (hs : ∀ t ∈ s.loopLog, liftF cfg.constantIds ⊆ t ∧ t ≠ ∅) :
    ∀ t ∈ (seqStep Ef cfg s).loopLog, liftF cfg.constantIds ⊆ t ∧ t ≠ ∅ := by
  unfold seqStep
  rw [seqFinalize_loopLog]
  exact seqStepCore_loopLog Ef cfg s hs

theorem seqIter_loopLog (Ef : Finset Elem → ℚ) (cfg : SeqCfg) :
    ∀ (n : Nat) (s : SeqState),
    (∀ t ∈ s.loopLog, liftF cfg.constantIds ⊆ t ∧ t ≠ ∅) →
    ∀ t ∈ (seqIter Ef cfg n s).loopLog, liftF cfg.constantIds ⊆ t ∧ t ≠ ∅ := by
  intro n
  induction n with
  | zero => intro s hs; exact hs
  | succ m ih =>
    intro s hs
    rw [seqIter]
    split_ifs
    · exact ih _ (seqStep_loopLog Ef cfg s hs)
    · exact hs

theorem compoundLoop_childLog (Ef : Finset Elem → ℚ) (cfg : BfsCfg)
    (node : Finset Elem) :
    ∀ (fuel : Nat) (ch : List (Finset Elem)) (sc : List ℚ) (st st' : BfsState),
    compoundLoop Ef cfg node fuel ch sc st = Except.ok st' →
    st'.childLog = st.childLog := by
  intro fuel
  induction fuel with
  | zero => intro ch sc st st' h; cases h; rfl
  | succ n ih =>
    intro ch sc st st' h
    match ch with
    | [] => cases h; rfl
    | c0 :: crest =>
      rw [compoundLoop] at h
      simp only [] at h
      split at h
      all_goals
        first
        | (cases h <;> rfl)
        | (split_ifs at h
           all_goals
             first
             | (cases h <;> rfl)
             | (exact (ih _ _ _ _ h).trans rfl))

theorem bfsLoop_childLog (Ef : Finset Elem → ℚ) (cfg : BfsCfg) :
    ∀ (fuel : Nat) (st : BfsState),
    (∀ t ∈ st.childLog, liftF cfg.constantIds ⊆ t) →
    ∀ t ∈ (bfsLoop Ef cfg fuel st).2.childLog, liftF cfg.constantIds ⊆ t := by
  intro fuel
  induction fuel with
  | zero => intro st hs; exact hs
  | succ n ih =>
    intro st hs
    have hext : ∀ (L : List (Finset Elem)) (t : Finset Elem),
        t ∈ st.childLog ++ L.map (fun c => c ∪ liftF cfg.constantIds) →
        liftF cfg.constantIds ⊆ t := by
      intro L t ht
      rcases List.mem_append.1 ht with h | h
      · exact hs t h
      · rcases List.mem_map.1 h with ⟨c, _, rfl⟩
        exact Finset.subset_union_right
    rw [bfsLoop]
    simp only []
    split
    · split
      · exact hs
      · split
        · exact ih _ (fun t ht => hext _ t ht)
        · split
          · split
            · split
              · exact fun t ht => hext _ t ht
              · rename_i st4 heq
                apply ih st4
                intro t ht
                rw [compoundLoop_childLog Ef cfg _ _ _ _ _ _ heq] at ht
                exact hext _ t ht
            · exact ih _ (fun t ht => hext _ t ht)
          · exact ih _ (fun t ht => hext _ t ht)
    · exact hs

/-- C2 (amended): every subset passed to the evaluation collaborator from inside the
    sequential search loop (step- and float-phase candidates) and when scoring
    best-first expansion children includes constant_feature_ids, because those call
    sites union the constants in; the initial-set and compound-candidate evaluations
    are the exceptions recorded in the counterexample. -/
theorem c2_loop_evals_include_constants (Ef Ef2 : Finset Elem → ℚ) (cfg : SeqCfg)
    (bcfg : BfsCfg) (n fuel : Nat) :
    (∀ t ∈ (seqIter Ef cfg n (seqInit Ef cfg)).loopLog,
      liftF cfg.constantIds ⊆ t) ∧
    (∀ t ∈ (bfsLoop Ef2 bcfg fuel (bfsInit Ef2 bcfg)).2.childLog,
      liftF bcfg.constantIds ⊆ t) := by
  constructor
  · intro t ht
    exact (seqIter_loopLog Ef cfg n (seqInit Ef cfg)
      (fun t' ht' => absurd ht' (List.not_mem_nil _)) t ht).1
  · intro t ht
    exact bfsLoop_childLog Ef2 bcfg fuel (bfsInit Ef2 bcfg)
      (fun t' ht' => absurd ht' (List.not_mem_nil _)) t ht

theorem c2_loop_evals_include_constants_witness :
    liftF cfgC7x.constantIds ⊆ ({Option.some 1} : Finset Elem) :=
  (c2_loop_evals_include_constants evalZero evalZero cfgC7x cfgC1b 1 1).1
    {Option.some 1} (by decide)

/-- C7 (amended): every subset submitted to the evaluation collaborator by
    sequential_feature_selection is nonempty - the candidate loops skip a candidate
    exactly when its toggled set unioned with constant_feature_ids is empty, and the
    initial set is only evaluated when nonempty.  With empty constant_feature_ids
    this excludes the id whose toggle would empty the current set; with nonempty
    constants that id is still submitted, as the counterexample shows. -/
theorem c7_all_submitted_sets_nonempty (Ef : Finset Elem → ℚ) (cfg : SeqCfg)
    (n : Nat) :
    ∀ t ∈ seqInitEvals cfg ++ (seqIter Ef cfg n (seqInit Ef cfg)).loopLog, t ≠ ∅ := by
  intro t ht
  rcases List.mem_append.1 ht with h | h
  · unfold seqInitEvals at h
    split_ifs at h with hI
    · cases h
    · rcases List.mem_singleton.1 h with rfl
      intro hemp
      unfold liftF at hemp
      exact hI (Finset.image_eq_empty.1 hemp)
  · exact (seqIter_loopLog Ef cfg n (seqInit Ef cfg)
      (fun t' ht' => absurd ht' (List.not_mem_nil _)) t h).2

theorem c7_all_submitted_sets_nonempty_witness :
    ({Option.some 1} : Finset Elem) ≠ ∅ :=
  c7_all_submitted_sets_nonempty evalZero cfgC7x 1 {Option.some 1} (by decide)

theorem floatLoop_frame (Ef : Finset Elem → ℚ) (cfg : SeqCfg) (jm : Elem) :
    ∀ (fuel : Nat) (s : SeqState),
    (floatLoop Ef cfg jm fuel s).overallBest = s.overallBest ∧
    (floatLoop Ef cfg jm fuel s).adoptedLog = s.adoptedLog ∧
    (floatLoop Ef cfg jm fuel s).counter = s.counter ∧
    (floatLoop Ef cfg jm fuel s).overallSet = s.overallSet := by
  intro fuel
  induction fuel with
  | zero => intro s; exact ⟨rfl, rfl, rfl, rfl⟩
  | succ n ih =>
    intro s
    rw [floatLoop]
    simp only []
    split_ifs
    all_goals
      first
      | exact ⟨rfl, rfl, rfl, rfl⟩
      | (refine ⟨(ih _).1.trans rfl, (ih _).2.1.trans rfl, (ih _).2.2.1.trans rfl,
          (ih _).2.2.2.trans rfl⟩)

theorem seqStepCore_frame (Ef : Finset Elem → ℚ) (cfg : SeqCfg) (s : SeqState) :
    (seqStepCore Ef cfg s).overallBest = s.overallBest ∧
    (seqStepCore Ef cfg s).adoptedLog = s.adoptedLog ∧
    (seqStepCore Ef cfg s).counter = s.counter ∧
    (seqStepCore Ef cfg s).overallSet = s.overallSet := by
  rw [seqStepCore]
  simp only []
  split_ifs
  all_goals
    first
    | exact ⟨rfl, rfl, rfl, rfl⟩
    | (refine ⟨(floatLoop_frame Ef cfg _ _ _).1.trans rfl,
        (floatLoop_frame Ef cfg _ _ _).2.1.trans rfl,
        (floatLoop_frame Ef cfg _ _ _).2.2.1.trans rfl,
        (floatLoop_frame Ef cfg _ _ _).2.2.2.trans rfl⟩)

theorem seqFinalize_chain (cfg : SeqCfg) (heps : cfg.epsilon = 0) (s : SeqState)
    (hq : List.Chain' (· ≤ ·) (s.adoptedLog ++ [s.overallBest])) :
    List.Chain' (· ≤ ·)
      ((seqFinalize cfg s).adoptedLog ++ [(seqFinalize cfg s).overallBest]) := by
  unfold seqFinalize
  split_ifs with h
  · have hlt : s.overallBest < s.scoreCur := by
      rw [ratSub_eq, heps, sub_zero] at h
      exact h
    obtain ⟨hA, _, hlink⟩ := List.chain'_append.1 hq
    show List.Chain' (· ≤ ·) ((s.adoptedLog ++ [s.scoreCur]) ++ [s.scoreCur])
    refine List.chain'_append.2 ⟨?_, List.chain'_singleton _, ?_⟩
    · refine List.chain'_append.2 ⟨hA, List.chain'_singleton _, ?_⟩
      intro x hx y hy
      simp only [List.head?_cons, Option.mem_def, Option.some.injEq] at hy
      subst hy
      exact le_of_lt (lt_of_le_of_lt (hlink x hx s.overallBest rfl) hlt)
    · intro x hx y hy
      simp only [List.head?_cons, Option.mem_def, Option.some.injEq] at hy
      subst hy
      rw [List.getLast?_concat, Option.mem_def, Option.some.injEq] at hx
      subst hx
      exact le_refl _
  · exact hq

theorem seqStep_chain (Ef : Finset Elem → ℚ) (cfg : SeqCfg) (heps : cfg.epsilon = 0)
    (s : SeqState)
    (hq : List.Chain' (· ≤ ·) (s.adoptedLog ++ [s.overallBest])) :
    List.Chain' (· ≤ ·)
      ((seqStep Ef cfg s).adoptedLog ++ [(seqStep Ef cfg s).overallBest]) := by
  unfold seqStep
  apply seqFinalize_chain cfg heps
  rw [(seqStepCore_frame Ef cfg s).1, (seqStepCore_frame Ef cfg s).2.1]
  exact hq

theorem seqIter_chain (Ef : Finset Elem → ℚ) (cfg : SeqCfg) (heps : cfg.epsilon = 0) :
    ∀ (n : Nat) (s : SeqState),
    List.Chain' (· ≤ ·) (s.adoptedLog ++ [s.overallBest]) →
    List.Chain' (· ≤ ·)
      ((seqIter Ef cfg n s).adoptedLog ++ [(seqIter Ef cfg n s).overallBest]) := by
  intro n
  induction n with
  | zero => intro s hs; exact hs
  | succ m ih =>
    intro s hs
    rw [seqIter]
    split_ifs
    · exact ih _ (seqStep_chain Ef cfg heps s hs)
    · exact hs

/-- C5 (amended): when epsilon = 0 the adoption test requires a strict improvement
    over overall_best_score, so the sequence of adopted overall_best_score values
    across outer iterations is a nondecreasing chain. -/
theorem c5_adopted_monotone_eps_zero (Ef : Finset Elem → ℚ) (cfg : SeqCfg)
    (heps : cfg.epsilon = 0) (n : Nat) :
    List.Chain' (· ≤ ·) ((seqIter Ef cfg n (seqInit Ef cfg)).adoptedLog) := by
  have hinit : List.Chain' (· ≤ ·)
      ((seqInit Ef cfg).adoptedLog ++ [(seqInit Ef cfg).overallBest]) := by
    show List.Chain' (· ≤ ·) ([] ++ [(seqInit Ef cfg).overallBest])
    simp only [List.nil_append]
    exact List.chain'_singleton _
  exact (List.chain'_append.1 (seqIter_chain Ef cfg heps n (seqInit Ef cfg) hinit)).1

theorem c5_adopted_monotone_eps_zero_witness :
    List.Chain' (· ≤ ·)
      ((seqIter evalZero cfgC7x 1 (seqInit evalZero cfgC7x)).adoptedLog) :=
  c5_adopted_monotone_eps_zero evalZero cfgC7x rfl 1

theorem liftF_const_subset_seqU (cfg : SeqCfg) :
    liftF cfg.constantIds ⊆ seqU cfg := by
  intro x hx
  apply Finset.mem_insert_of_mem
  exact Finset.image_subset_image Finset.subset_union_right hx

theorem liftF_initial_subset_seqU (cfg : SeqCfg) :
    liftF cfg.initialSet ⊆ seqU cfg := by
  intro x hx
  apply Finset.mem_insert_of_mem
  exact Finset.image_subset_image
    (Finset.subset_union_left.trans Finset.subset_union_left) hx

theorem liftF_space_subset_seqU (cfg : SeqCfg) {s : Finset Nat}
    (h : s ⊆ cfg.searchSpace) : liftF s ⊆ seqU cfg := by
  intro x hx
  apply Finset.mem_insert_of_mem
  exact Finset.image_subset_image
    (h.trans (Finset.subset_union_right.trans Finset.subset_union_left)) hx

theorem mem_seqU_none (cfg : SeqCfg) : (Option.none : Elem) ∈ seqU cfg :=
  Finset.mem_insert_self _ _

theorem seqSU_sentStep (Ef : Finset Elem → ℚ) (cfg : SeqCfg) :
    sentStep ∈ seqSU Ef cfg := Finset.mem_insert_self _ _

theorem seqSU_sentFloat (Ef : Finset Elem → ℚ) (cfg : SeqCfg) :
    sentFloat ∈ seqSU Ef cfg :=
  Finset.mem_insert_of_mem (Finset.mem_insert_self _ _)

theorem seqSU_eval (Ef : Finset Elem → ℚ) (cfg : SeqCfg) {t : Finset Elem}
    (h : t ⊆ seqU cfg) : Ef t ∈ seqSU Ef cfg :=
  Finset.mem_insert_of_mem (Finset.mem_insert_of_mem
    (Finset.mem_image_of_mem Ef (Finset.mem_powerset.2 h)))

theorem scan_best_in_seqU (Ef : Finset Elem → ℚ) (cfg : SeqCfg)
    (cur look : Finset Elem) (op : Int) (q : ℚ) (hlook : look ⊆ seqU cfg) :
    (scanCandidates Ef (liftF cfg.constantIds) cur op (sortedList look)
      Option.none q).1 ∈ seqU cfg := by
  rcases scanCandidates_best_mem Ef (liftF cfg.constantIds) cur op (sortedList look)
    Option.none q with h | h
  · rw [h]; exact mem_seqU_none cfg
  · exact hlook (mem_sortedList.1 h)

theorem scan_score_in_seqSU (Ef : Finset Elem → ℚ) (cfg : SeqCfg)
    (cur look : Finset Elem) (op : Int) (q : ℚ) (hq : q ∈ seqSU Ef cfg)
    (hcur : cur ⊆ seqU cfg) (hlook : look ⊆ seqU cfg) :
    (scanCandidates Ef (liftF cfg.constantIds) cur op (sortedList look)
      Option.none q).2.1 ∈ seqSU Ef cfg := by
  rcases scanCandidates_score_spec Ef (liftF cfg.constantIds) cur op (sortedList look)
    Option.none q with h | ⟨i, hi, h⟩
  · rw [h]; exact hq
  · rw [h]
    apply seqSU_eval
    apply Finset.union_subset
    · exact (applyOp_subset_insert cur i op).trans
        (Finset.insert_subset (hlook (mem_sortedList.1 hi)) hcur)
    · exact liftF_const_subset_seqU cfg

theorem floatLoop_inv (Ef : Finset Elem → ℚ) (cfg : SeqCfg) (jm : Elem) :
    ∀ (fuel : Nat) (s : SeqState), SeqInv Ef cfg s →
    SeqInv Ef cfg (floatLoop Ef cfg jm fuel s) := by
  intro fuel
  induction fuel with
  | zero => exact fun s hs => hs
  | succ n ih =>
    intro s hs
    obtain ⟨hc, hr, hsc, hob, hcnt⟩ := hs
    rw [floatLoop]
    simp only []
    split_ifs
    all_goals try apply ih
    all_goals
      first
      | exact ⟨hc, hr, hsc, hob, hcnt⟩
      | (refine ⟨(applyOp_subset_insert _ _ _).trans (Finset.insert_subset ?_ hc),
          (applyOp_subset_insert _ _ _).trans (Finset.insert_subset ?_ hr), ?_,
          hob, hcnt⟩ <;>
         first
         | exact scan_best_in_seqU Ef cfg _ _ _ _
            ((applyOp_subset_of_remove _ _ (by decide)).trans hc)
         | exact scan_best_in_seqU Ef cfg _ _ _ _
            ((applyOp_subset_of_remove _ _ (by decide)).trans hr)
         | exact scan_score_in_seqSU Ef cfg _ _ _ _ (seqSU_sentFloat Ef cfg) hc
            ((applyOp_subset_of_remove _ _ (by decide)).trans hc)
         | exact scan_score_in_seqSU Ef cfg _ _ _ _ (seqSU_sentFloat Ef cfg) hc
            ((applyOp_subset_of_remove _ _ (by decide)).trans hr))

theorem seqStepCore_inv (Ef : Finset Elem → ℚ) (cfg : SeqCfg) (s : SeqState)
    (hs : SeqInv Ef cfg s) : SeqInv Ef cfg (seqStepCore Ef cfg s) := by
  obtain ⟨hc, hr, hsc, hob, hcnt⟩ := hs
  rw [seqStepCore]
  simp only []
  split_ifs
  all_goals try apply floatLoop_inv
  all_goals
    first
    | exact ⟨hc, hr, hsc, hob, hcnt⟩
    | (refine ⟨(applyOp_subset_insert _ _ _).trans (Finset.insert_subset ?_ hc),
        (applyOp_subset_insert _ _ _).trans (Finset.insert_subset ?_ hr), ?_,
        hob, hcnt⟩ <;>
       first
       | exact scan_best_in_seqU Ef cfg _ _ _ _ hc
       | exact scan_best_in_seqU Ef cfg _ _ _ _ hr
       | exact scan_score_in_seqSU Ef cfg _ _ _ _ (seqSU_sentStep Ef cfg) hc hc
       | exact scan_score_in_seqSU Ef cfg _ _ _ _ (seqSU_sentStep Ef cfg) hc hr)

theorem seqFinalize_inv (Ef : Finset Elem → ℚ) (cfg : SeqCfg) (s : SeqState)
    (hs : SeqInv Ef cfg s) : SeqInv Ef cfg (seqFinalize cfg s) := by
  obtain ⟨hc, hr, hsc, hob, hcnt⟩ := hs
  unfold seqFinalize
  split_ifs
  · exact ⟨hc, hr, hsc, hsc, le_refl 0⟩
  · refine ⟨hc, hr, hsc, hob, ?_⟩
    show (0 : Int) ≤ s.counter + 1
    omega

theorem seqStep_inv (Ef : Finset Elem → ℚ) (cfg : SeqCfg) (s : SeqState)
    (hs : SeqInv Ef cfg s) : SeqInv Ef cfg (seqStep Ef cfg s) :=
  seqFinalize_inv Ef cfg _ (seqStepCore_inv Ef cfg s hs)

theorem seqInit_inv (Ef : Finset Elem → ℚ) (cfg : SeqCfg) :
    SeqInv Ef cfg (seqInit Ef cfg) := by
  unfold seqInit
  dsimp only
  refine ⟨?_, ?_, ?_, ?_, ?_⟩ <;> split_ifs <;>
    first
    | exact liftF_initial_subset_seqU cfg
    | exact liftF_space_subset_seqU cfg Finset.sdiff_subset
    | exact Finset.empty_subset _
    | exact seqSU_sentStep Ef cfg
    | exact seqSU_eval Ef cfg (liftF_initial_subset_seqU cfg)
    | exact le_refl (0 : Int)

theorem seqStep_measure_lt (Ef : Finset Elem → ℚ) (cfg : SeqCfg)
    (heps : cfg.epsilon = 0) (s : SeqState) (hs : SeqInv Ef cfg s)
    (hcond : s.counter ≤ cfg.overshoot) :
    seqMeasure Ef cfg (seqStep Ef cfg s) < seqMeasure Ef cfg s := by
  have hcc : (0 : Int) ≤ s.counter := hs.2.2.2.2
  have hob : s.overallBest ∈ seqSU Ef cfg := hs.2.2.2.1
  have hm := seqStepCore_inv Ef cfg s hs
  have hfr := seqStepCore_frame Ef cfg s
  unfold seqStep seqFinalize
  split_ifs with h
  · have hlt : s.overallBest < (seqStepCore Ef cfg s).scoreCur := by
      rw [ratSub_eq, heps, sub_zero, hfr.1] at h
      exact h
    have hsubset : (seqSU Ef cfg).filter
          (fun q => (seqStepCore Ef cfg s).scoreCur < q) ⊂
        (seqSU Ef cfg).filter (fun q => s.overallBest < q) := by
      constructor
      · intro q hq
        rw [Finset.mem_filter] at hq ⊢
        exact ⟨hq.1, lt_trans hlt hq.2⟩
      · intro hsub
        have hmem := hsub (Finset.mem_filter.2 ⟨hm.2.2.1, hlt⟩)
        exact absurd (Finset.mem_filter.1 hmem).2 (lt_irrefl _)
    have hklt := Finset.card_lt_card hsubset
    unfold seqMeasure
    dsimp only
    generalize hk1 : ((seqSU Ef cfg).filter
      (fun q => (seqStepCore Ef cfg s).scoreCur < q)).card = k1 at hklt ⊢
    generalize hk2 : ((seqSU Ef cfg).filter
      (fun q => s.overallBest < q)).card = k2 at hklt ⊢
    have hmul : (cfg.overshoot + 2).toNat * k1 + (cfg.overshoot + 2).toNat ≤
        (cfg.overshoot + 2).toNat * k2 := by
      have h1 : k1 + 1 ≤ k2 := hklt
      calc (cfg.overshoot + 2).toNat * k1 + (cfg.overshoot + 2).toNat
          = (cfg.overshoot + 2).toNat * (k1 + 1) := by ring
        _ ≤ (cfg.overshoot + 2).toNat * k2 := Nat.mul_le_mul_left _ h1
    generalize (cfg.overshoot + 2).toNat * k1 = A at hmul ⊢
    generalize (cfg.overshoot + 2).toNat * k2 = B at hmul ⊢
    omega
  · unfold seqMeasure
    dsimp only
    rw [hfr.1, hfr.2.2.1]
    generalize ((cfg.overshoot + 2).toNat *
      ((seqSU Ef cfg).filter (fun q => s.overallBest < q)).card : Nat) = A
    omega

theorem seqLoop_isSome_of_measure (Ef : Finset Elem → ℚ) (cfg : SeqCfg)
    (heps : cfg.epsilon = 0) :
    ∀ (N : Nat) (s : SeqState), SeqInv Ef cfg s → seqMeasure Ef cfg s < N →
    (seqLoop Ef cfg N s).isSome = true := by
  intro N
  induction N with
  | zero => intro s _ hlt; exact absurd hlt (Nat.not_lt_zero _)
  | succ n ih =>
    intro s hs hlt
    rw [seqLoop]
    split_ifs with hc
    · exact ih _ (seqStep_inv Ef cfg s hs)
        (lt_of_lt_of_le (seqStep_measure_lt Ef cfg heps s hs hc)
          (Nat.lt_succ_iff.1 hlt))
    · rfl

/-- C4 (amended): for every configuration and every (deterministic) evaluation
    collaborator, the outer loop of sequential_feature_selection terminates when
    epsilon = 0: each adoption strictly increases overall_best_score within the
    finite score universe, so eventually the non-improvement counter exceeds
    overshoot and the loop exits. -/
theorem c4_terminates_eps_zero (Ef : Finset Elem → ℚ) (cfg : SeqCfg)
    (heps : cfg.epsilon = 0) :
    ∃ n, (seqLoop Ef cfg n (seqInit Ef cfg)).isSome = true :=
  ⟨seqMeasure Ef cfg (seqInit Ef cfg) + 1,
    seqLoop_isSome_of_measure Ef cfg heps _ _ (seqInit_inv Ef cfg)
      (Nat.lt_succ_self _)⟩

theorem c4_terminates_eps_zero_witness :
    ∃ n, (seqLoop evalZero cfgC7x n (seqInit evalZero cfgC7x)).isSome = true :=
  c4_terminates_eps_zero evalZero cfgC7x rfl

theorem c4_fix_step (s : SeqState) (h1 : s.current = {Option.some 0})
    (h2 : s.remaining = ∅) (h3 : s.scoreCur = 0) (h4 : s.overallBest = 0)
    (h5 : s.counter = 0) :
    (seqStep evalZero cfgC4 s).current = {Option.some 0} ∧
    (seqStep evalZero cfgC4 s).remaining = ∅ ∧
    (seqStep evalZero cfgC4 s).scoreCur = 0 ∧
    (seqStep evalZero cfgC4 s).overallBest = 0 ∧
    (seqStep evalZero cfgC4 s).counter = 0 := by
  obtain ⟨cur, rem, sc, ob, os, cnt, al, ll⟩ := s
  dsimp only at h1 h2 h3 h4 h5
  subst h1 h2 h3 h4 h5
  have hstep : seqStep evalZero cfgC4 ⟨{Option.some 0}, ∅, 0, 0, os, 0, al, ll⟩ =
      ⟨{Option.some 0}, ∅, 0, 0, {Option.some 0} ∪ liftF cfgC4.constantIds, 0,
        al ++ [0], ll ++ []⟩ := by with_unfolding_all rfl
  rw [hstep]
  exact ⟨rfl, rfl, rfl, rfl, rfl⟩

theorem c4_loop_none : ∀ (n : Nat) (s : SeqState),
    s.current = {Option.some 0} → s.remaining = ∅ → s.scoreCur = 0 →
    s.overallBest = 0 → s.counter = 0 →
    seqLoop evalZero cfgC4 n s = Option.none := by
  intro n
  induction n with
  | zero => intro s _ _ _ _ _; rfl
  | succ m ih =>
    intro s h1 h2 h3 h4 h5
    rw [seqLoop]
    rw [if_pos (by rw [h5]; decide)]
    obtain ⟨k1, k2, k3, k4, k5⟩ := c4_fix_step s h1 h2 h3 h4 h5
    exact ih _ k1 k2 k3 k4 k5

/-- C4 (counterexample): with epsilon = 1/2 over a single feature and a constant
    evaluation score, the state after the first iteration is a fixed point of the
    outer loop whose adoption test keeps succeeding at an unchanged score, so the
    patience counter is reset forever and the loop never exits, for any fuel. -/
theorem c4_positive_epsilon_diverges :
    okOf (validateSeq argsC4) = Option.some cfgC4 ∧
    ¬ ∃ n, (seqLoop evalZero cfgC4 n (seqInit evalZero cfgC4)).isSome = true := by
  constructor
  · decide
  · rintro ⟨n, hn⟩
    have hnone : seqLoop evalZero cfgC4 n (seqInit evalZero cfgC4) = Option.none := by
      cases n with
      | zero => rfl
      | succ m =>
        rw [seqLoop]
        rw [if_pos (by decide)]
        exact c4_loop_none m _ (by decide) (by decide) (by decide) (by decide)
          (by decide)
    rw [hnone] at hn
    cases hn
